import Mathlib

/-!
Shallow embedding of the drawing-history core of `src/main.ts` (an
interactive sketchpad).  The mutable module-level state of the script —
the `strokes` and `redoStack` arrays, the `isDrawing` flag, the `preview`
slot, the current tool settings and the sticker list — is collected into
an explicit `AppState`; every event handler of the script becomes a pure
function `AppState → AppState` (handlers that read a non-deterministic
input, such as the randomly generated marker colour or the text returned
by `prompt`, take it as an explicit parameter).  Canvas drawing is
reified as a list of `DrawCall`s: a command's `display` method and a
preview's `draw` method become functions returning the draw calls they
would issue, and `render` returns the full frame's call list.
Coordinates, thicknesses and font sizes (JavaScript numbers) are modelled
as rationals.
-/

/-- The 2D point type `Point` of the source: an x and a y coordinate. -/
structure Point where
  x : ℚ
  y : ℚ
deriving DecidableEq, Repr

/-- The tool mode: `"marker"` or `"sticker"`. -/
inductive ToolMode where
  | marker
  | sticker
deriving DecidableEq, Repr

/-- The two `DisplayCommand` classes.  `MarkerStroke` keeps its point
list, thickness and colour; `StickerCommand` keeps its centre, emoji and
font size. -/
inductive DisplayCommand where
  | markerStroke (points : List Point) (thickness : ℚ) (color : String)
  | stickerCommand (center : Point) (emoji : String) (fontPx : ℚ)
deriving DecidableEq, Repr

/-- The two `ToolPreview` classes. -/
inductive ToolPreview where
  | markerPreview (center : Point) (thickness : ℚ) (color : String)
  | stickerPreview (center : Point) (emoji : String) (fontPx : ℚ)
deriving DecidableEq, Repr

/-- One canvas operation issued against a `CanvasRenderingContext2D`.
Attribute assignments (`lineWidth`, `strokeStyle`, …) and path calls are
each one constructor.  `arc` is always called with angles `0` and
`Math.PI * 2` (a full circle), so only the centre and radius are
recorded; `font` is always the template `"<px>px system-ui"`, so only the
pixel size is recorded. -/
inductive DrawCall where
  | clearRect (x y w h : ℚ)
  | setLineWidth (w : ℚ)
  | setLineCap (cap : String)
  | setStrokeStyle (c : String)
  | beginPath
  | moveTo (p : Point)
  | lineTo (p : Point)
  | stroke
  | save
  | restore
  | setGlobalAlpha (a : ℚ)
  | setFont (px : ℚ)
  | setTextAlign (a : String)
  | setTextBaseline (b : String)
  | fillText (txt : String) (p : Point)
  | arc (center : Point) (radius : ℚ)
deriving DecidableEq, Repr

/-- The draw calls a command's `display` method issues.  `MarkerStroke.display`
returns early on an empty point
list; otherwise it destructures `[first, ...rest]`, moves to `first`,
lines to each of `rest`, and for a single-point stroke lines to the point
nudged by `0.01` so the round cap paints a dot. -/
def displayCommand : DisplayCommand → List DrawCall
  | DisplayCommand.markerStroke points thickness color =>
    match points with
    | [] => []
    | first :: rest =>
      [DrawCall.setLineWidth thickness, DrawCall.setLineCap "round",
       DrawCall.setStrokeStyle color, DrawCall.beginPath, DrawCall.moveTo first]
      ++ rest.map DrawCall.lineTo
      ++ (if (first :: rest).length = 1 then
            [DrawCall.lineTo ⟨first.x + 0.01, first.y + 0.01⟩] else [])
      ++ [DrawCall.stroke]
  | DisplayCommand.stickerCommand center emoji fontPx =>
      [DrawCall.save, DrawCall.setFont fontPx, DrawCall.setTextAlign "center",
       DrawCall.setTextBaseline "middle", DrawCall.fillText emoji center,
       DrawCall.restore]

/-- The draw calls a preview's `draw` method issues; both variants
bracket their work in `save`/`restore`. -/
def drawPreview : ToolPreview → List DrawCall
  | ToolPreview.markerPreview center thickness color =>
      [DrawCall.save, DrawCall.setGlobalAlpha 0.6, DrawCall.setStrokeStyle color,
       DrawCall.setLineWidth 1, DrawCall.beginPath,
       DrawCall.arc center (thickness / 2), DrawCall.stroke, DrawCall.restore]
  | ToolPreview.stickerPreview center emoji fontPx =>
      [DrawCall.save, DrawCall.setGlobalAlpha 0.8, DrawCall.setFont fontPx,
       DrawCall.setTextAlign "center", DrawCall.setTextBaseline "middle",
       DrawCall.fillText emoji center, DrawCall.restore]

/-- The constant `THIN = 3`. -/
def THIN : ℚ := 3

/-- The constant `THICK = 10`. -/
def THICK : ℚ := 10

/-- The constant `STICKER_FONT_PX = 32`. -/
def STICKER_FONT_PX : ℚ := 32

/-- The current tool settings: `currentToolMode`, `currentThickness`,
`currentMarkerColor`, `currentSticker`. -/
structure ToolState where
  mode : ToolMode
  thickness : ℚ
  markerColor : String
  sticker : String
deriving DecidableEq, Repr

/-- The script's mutable module-level state: the `strokes` array (the
committed commands, index 0 oldest), the `redoStack` array, the
`isDrawing` flag, the `preview` slot, the tool settings, and the
`stickers` list of known sticker glyphs. -/
structure AppState where
  strokes : List DisplayCommand
  redoStack : List DisplayCommand
  isDrawing : Bool
  preview : Option ToolPreview
  tool : ToolState
  stickers : List String
deriving DecidableEq, Repr

/-- The state after module initialisation: empty history, not drawing,
no preview, thin black marker selected, the four built-in stickers. -/
def initState : AppState :=
  { strokes := []
    redoStack := []
    isDrawing := false
    preview := none
    tool := { mode := ToolMode.marker, thickness := THIN,
              markerColor := "#000000", sticker := "✨" }
    stickers := ["🎨", "✨", "💫", "🎉"] }

/-- The function `render`: clear the whole 256×256 canvas, display every committed
command in order, then draw the preview only when not drawing and a
preview exists.  (The trailing `updateButtonStates`/`updateToolSelection`
calls touch only DOM button attributes, not the canvas.) -/
def render (s : AppState) : List DrawCall :=
  DrawCall.clearRect 0 0 256 256
    :: ((s.strokes.map displayCommand).flatten
      ++ (match s.isDrawing, s.preview with
          | false, some pv => drawPreview pv
          | _, _ => []))

/-- The canvas `mousedown` handler: set `isDrawing`, clear the redo
stack ("starting a new element invalidates redo history"), hide the
preview, and push a fresh command built from the current tool state. -/
def mousedownHandler (p : Point) (s : AppState) : AppState :=
  let s1 := { s with isDrawing := true, redoStack := [], preview := none }
  match s.tool.mode with
  | ToolMode.marker =>
      { s1 with strokes := s.strokes
          ++ [DisplayCommand.markerStroke [p] s.tool.thickness s.tool.markerColor] }
  | ToolMode.sticker =>
      { s1 with strokes := s.strokes
          ++ [DisplayCommand.stickerCommand p s.tool.sticker STICKER_FONT_PX] }

/-- The canvas `mouseup` handler: stop drawing. -/
def mouseupHandler (s : AppState) : AppState :=
  { s with isDrawing := false }

/-- The canvas `mouseleave` handler: stop drawing and drop the preview. -/
def mouseleaveHandler (s : AppState) : AppState :=
  { s with isDrawing := false, preview := none }

/-- The canvas `mousemove` handler.  While drawing, the handler reads
`strokes[strokes.length - 1]` (in an empty array this is `undefined`,
failing both `instanceof` tests) and, depending on the current tool mode,
either `drag`s a `MarkerStroke` (appending the point) or `setPosition`s a
`StickerCommand` (replacing its centre).  While hovering it constructs or
repositions the preview matching the current tool mode. -/
def mousemoveHandler (p : Point) (s : AppState) : AppState :=
  if s.isDrawing then
    match s.strokes.getLast? with
    | none => s
    | some lastCommand =>
      match s.tool.mode with
      | ToolMode.marker =>
        match lastCommand with
        | DisplayCommand.markerStroke pts t c =>
            { s with strokes := s.strokes.dropLast
                ++ [DisplayCommand.markerStroke (pts ++ [p]) t c] }
        | _ => s
      | ToolMode.sticker =>
        match lastCommand with
        | DisplayCommand.stickerCommand _ e f =>
            { s with strokes := s.strokes.dropLast
                ++ [DisplayCommand.stickerCommand p e f] }
        | _ => s
  else
    match s.tool.mode with
    | ToolMode.marker =>
      let moved := ToolPreview.markerPreview p s.tool.thickness s.tool.markerColor
      match s.preview with
      | some (ToolPreview.markerPreview _ _ _) => { s with preview := some moved }
      | _ => { s with preview := some moved }
    | ToolMode.sticker =>
      let moved := ToolPreview.stickerPreview p s.tool.sticker STICKER_FONT_PX
      match s.preview with
      | some (ToolPreview.stickerPreview _ _ _) => { s with preview := some moved }
      | _ => { s with preview := some moved }

/-- The Undo button handler: unless `strokes` is empty, pop its last
command and push it onto `redoStack`. -/
def undoClick (s : AppState) : AppState :=
  match s.strokes.getLast? with
  | none => s
  | some undone =>
      { s with strokes := s.strokes.dropLast, redoStack := s.redoStack ++ [undone] }

/-- The Redo button handler: unless `redoStack` is empty, pop its last
command and push it back onto `strokes`. -/
def redoClick (s : AppState) : AppState :=
  match s.redoStack.getLast? with
  | none => s
  | some redone =>
      { s with strokes := s.strokes ++ [redone], redoStack := s.redoStack.dropLast }

/-- The Clear button handler: empty both history arrays. -/
def clearClick (s : AppState) : AppState :=
  { s with strokes := [], redoStack := [] }

/-- The Fine (thin) tool button handler.  `color` is the value
`generateRandomColor()` returned.  If the preview is a `MarkerPreview`
its thickness and colour are updated in place; any other preview is left
untouched. -/
def thinClick (color : String) (s : AppState) : AppState :=
  let tool1 : ToolState :=
    { s.tool with mode := ToolMode.marker, thickness := THIN, markerColor := color }
  let s1 := { s with tool := tool1 }
  match s.preview with
  | some (ToolPreview.markerPreview center _ _) =>
      { s1 with preview := some (ToolPreview.markerPreview center THIN color) }
  | _ => s1

/-- The Bold (thick) tool button handler; same shape as the thin one. -/
def thickClick (color : String) (s : AppState) : AppState :=
  let tool1 : ToolState :=
    { s.tool with mode := ToolMode.marker, thickness := THICK, markerColor := color }
  let s1 := { s with tool := tool1 }
  match s.preview with
  | some (ToolPreview.markerPreview center _ _) =>
      { s1 with preview := some (ToolPreview.markerPreview center THICK color) }
  | _ => s1

/-- A sticker button's click handler (`createStickerButton`): select
sticker mode and that button's emoji.  The preview is not touched. -/
def stickerClick (emoji : String) (s : AppState) : AppState :=
  { s with tool := { s.tool with mode := ToolMode.sticker, sticker := emoji } }

/-- The "+ Add Emoji" button handler.  `text` is what `prompt` returned
(`none` when cancelled).  Empty or already-known text is ignored;
otherwise the sticker list grows and the new sticker becomes current. -/
def customStickerClick (text : Option String) (s : AppState) : AppState :=
  match text with
  | none => s
  | some t =>
    if t = "" then s
    else if t ∈ s.stickers then s
    else { s with stickers := s.stickers ++ [t],
                  tool := { s.tool with mode := ToolMode.sticker, sticker := t } }

/-- One user-interface event, with any non-deterministic input it
carries (pointer position, random colour, prompt text). -/
inductive Event where
  | mousedown (p : Point)
  | mousemove (p : Point)
  | mouseup
  | mouseleave
  | undoB
  | redoB
  | clearB
  | thinB (color : String)
  | thickB (color : String)
  | stickerB (emoji : String)
  | customStickerB (text : Option String)

/-- Dispatch one event to its handler. -/
def step : Event → AppState → AppState
  | Event.mousedown p, s => mousedownHandler p s
  | Event.mousemove p, s => mousemoveHandler p s
  | Event.mouseup, s => mouseupHandler s
  | Event.mouseleave, s => mouseleaveHandler s
  | Event.undoB, s => undoClick s
  | Event.redoB, s => redoClick s
  | Event.clearB, s => clearClick s
  | Event.thinB c, s => thinClick c s
  | Event.thickB c, s => thickClick c s
  | Event.stickerB e, s => stickerClick e s
  | Event.customStickerB t, s => customStickerClick t s

/-- States the program can be in: the initial state and everything an
event sequence reaches from it. -/
inductive Reachable : AppState → Prop where
  | init : Reachable initState
  | next (e : Event) {s : AppState} : Reachable s → Reachable (step e s)

/-- Repeated Undo clicks, `n` of them. -/
def undoN : Nat → AppState → AppState
  | 0, s => s
  | n + 1, s => undoN n (undoClick s)

/-- Repeated Redo clicks, `n` of them. -/
def redoN : Nat → AppState → AppState
  | 0, s => s
  | n + 1, s => redoClick (redoN n s)

/-! ### Helper lemmas about the Undo/Redo button handlers -/

theorem undoClick_nil (s : AppState) (h : s.strokes = []) : undoClick s = s := by
  simp [undoClick, h]

theorem undoClick_concat (s : AppState) (l : List DisplayCommand) (c : DisplayCommand)
    (h : s.strokes = l ++ [c]) :
    undoClick s = { s with strokes := l, redoStack := s.redoStack ++ [c] } := by
  simp [undoClick, h, List.getLast?_concat, List.dropLast_concat]

theorem redoClick_nil (s : AppState) (h : s.redoStack = []) : redoClick s = s := by
  simp [redoClick, h]

theorem redoClick_concat (s : AppState) (l : List DisplayCommand) (c : DisplayCommand)
    (h : s.redoStack = l ++ [c]) :
    redoClick s = { s with strokes := s.strokes ++ [c], redoStack := l } := by
  simp [redoClick, h, List.getLast?_concat, List.dropLast_concat]

theorem redoClick_undoClick (s : AppState) (h : s.strokes ≠ []) :
    redoClick (undoClick s) = s := by
  rcases List.eq_nil_or_concat' s.strokes with h0 | ⟨l, c, hc⟩
  · exact absurd h0 h
  · rw [undoClick_concat s l c hc, redoClick_concat _ s.redoStack c rfl]
    simp [← hc]

theorem undoClick_length (s : AppState) (h : s.strokes ≠ []) :
    (undoClick s).strokes.length + 1 = s.strokes.length := by
  rcases List.eq_nil_or_concat' s.strokes with h0 | ⟨l, c, hc⟩
  · exact absurd h0 h
  · rw [undoClick_concat s l c hc]
    simp [hc]

theorem redoN_undoN (n : Nat) : ∀ s : AppState, n ≤ s.strokes.length →
    redoN n (undoN n s) = s := by
  induction n with
  | zero => intro s _; rfl
  | succ n ih =>
    intro s h
    have hne : s.strokes ≠ [] := by
      intro h0
      rw [h0] at h
      simp at h
    have hlen : n ≤ (undoClick s).strokes.length := by
      have := undoClick_length s hne
      omega
    show redoClick (redoN n (undoN n (undoClick s))) = s
    rw [ih (undoClick s) hlen, redoClick_undoClick s hne]

theorem undo_moves (s : AppState) :
    undoClick s = s ∨ ∃ c, s.strokes = (undoClick s).strokes ++ [c]
      ∧ (undoClick s).redoStack = s.redoStack ++ [c] := by
  rcases List.eq_nil_or_concat' s.strokes with hs | ⟨l, c, hs⟩
  · exact Or.inl (undoClick_nil s hs)
  · exact Or.inr ⟨c, by simp [undoClick_concat s l c hs, hs]⟩

theorem redo_moves (s : AppState) :
    redoClick s = s ∨ ∃ c, s.redoStack = (redoClick s).redoStack ++ [c]
      ∧ (redoClick s).strokes = s.strokes ++ [c] := by
  rcases List.eq_nil_or_concat' s.redoStack with hr | ⟨l, c, hr⟩
  · exact Or.inl (redoClick_nil s hr)
  · exact Or.inr ⟨c, by simp [redoClick_concat s l c hr, hr]⟩

/-- C1: from any state whose redo buffer is empty — which is the case after
every sequence of begin/extend/seal calls, since `mousedown` (begin)
clears it and the other two never fill it — clicking Undo once per
committed command and then Redo the same number of times restores the
committed sequence to exactly the same commands in the same order and
leaves the redo buffer empty. -/
theorem undo_redo_inverse (s : AppState) (h : s.redoStack = []) :
    (redoN s.strokes.length (undoN s.strokes.length s)).strokes = s.strokes
    ∧ (redoN s.strokes.length (undoN s.strokes.length s)).redoStack = [] := by
  rw [redoN_undoN s.strokes.length s le_rfl]
  exact ⟨rfl, h⟩

/-- A concrete two-command history: a marker stroke sealed, then a second
stroke begun. -/
def twoStrokeState : AppState :=
  mousedownHandler ⟨3, 4⟩ (mouseupHandler (mousedownHandler ⟨1, 2⟩ initState))

theorem undo_redo_inverse_witness :
    (redoN twoStrokeState.strokes.length
        (undoN twoStrokeState.strokes.length twoStrokeState)).strokes
      = twoStrokeState.strokes
    ∧ (redoN twoStrokeState.strokes.length
        (undoN twoStrokeState.strokes.length twoStrokeState)).redoStack = [] :=
  undo_redo_inverse twoStrokeState (by decide)

/-- C2: `mousedown` (begin) appends exactly one new command to the
committed sequence and unconditionally empties the redo stack, so a Redo
click immediately afterwards is a no-op, however many commands had been
undone before. -/
theorem begin_appends_and_invalidates (p : Point) (s : AppState) :
    ∃ c, (mousedownHandler p s).strokes = s.strokes ++ [c]
      ∧ (mousedownHandler p s).redoStack = []
      ∧ redoClick (mousedownHandler p s) = mousedownHandler p s := by
  cases hm : s.tool.mode with
  | marker =>
      refine ⟨DisplayCommand.markerStroke [p] s.tool.thickness s.tool.markerColor,
        ?_, ?_, ?_⟩
      · simp [mousedownHandler, hm]
      · simp [mousedownHandler, hm]
      · exact redoClick_nil _ (by simp [mousedownHandler, hm])
  | sticker =>
      refine ⟨DisplayCommand.stickerCommand p s.tool.sticker STICKER_FONT_PX,
        ?_, ?_, ?_⟩
      · simp [mousedownHandler, hm]
      · simp [mousedownHandler, hm]
      · exact redoClick_nil _ (by simp [mousedownHandler, hm])

/-- C3: the history operations are total — every handler is a total Lean
function — and the degenerate cases are no-ops: Undo with no committed
commands and Redo with an empty redo stack return the state unchanged; a
drag sample (`mousemove` while drawing) with no live command (empty
committed sequence) returns the state unchanged; sealing (`mouseup`)
never changes the committed sequence or the redo stack, so in particular
not when no command is live. -/
theorem noop_safety (p : Point) (s : AppState) :
    (s.strokes = [] → undoClick s = s)
    ∧ (s.redoStack = [] → redoClick s = s)
    ∧ (s.isDrawing = true → s.strokes = [] → mousemoveHandler p s = s)
    ∧ (mouseupHandler s).strokes = s.strokes
    ∧ (mouseupHandler s).redoStack = s.redoStack := by
  refine ⟨undoClick_nil s, redoClick_nil s, ?_, rfl, rfl⟩
  intro hd hs
  simp [mousemoveHandler, hd, hs]

/-- C4: each Undo or Redo click either moves exactly one command between
the committed sequence and the redo stack or is a no-op; consequently the
sum of the two lengths is preserved, and every command value occurs in
the two sequences together exactly as often afterwards as before (the
value-level form of "every command is a member of exactly one of them"). -/
theorem undo_redo_conservation (s : AppState) :
    ((undoClick s).strokes.length + (undoClick s).redoStack.length
        = s.strokes.length + s.redoStack.length)
    ∧ ((redoClick s).strokes.length + (redoClick s).redoStack.length
        = s.strokes.length + s.redoStack.length)
    ∧ (undoClick s = s ∨ ∃ c, s.strokes = (undoClick s).strokes ++ [c]
        ∧ (undoClick s).redoStack = s.redoStack ++ [c])
    ∧ (redoClick s = s ∨ ∃ c, s.redoStack = (redoClick s).redoStack ++ [c]
        ∧ (redoClick s).strokes = s.strokes ++ [c])
    ∧ (∀ c, ((undoClick s).strokes ++ (undoClick s).redoStack).count c
        = (s.strokes ++ s.redoStack).count c)
    ∧ (∀ c, ((redoClick s).strokes ++ (redoClick s).redoStack).count c
        = (s.strokes ++ s.redoStack).count c) := by
  have hu := undo_moves s
  have hr := redo_moves s
  refine ⟨?_, ?_, hu, hr, ?_, ?_⟩
  · rcases hu with h | ⟨c, h1, h2⟩
    · rw [h]
    · rw [h1, h2]
      simp
      omega
  · rcases hr with h | ⟨c, h1, h2⟩
    · rw [h]
    · rw [h1, h2]
      simp
      omega
  · intro c
    rcases hu with h | ⟨c2, h1, h2⟩
    · rw [h]
    · rw [h1, h2]
      simp [List.count_append, List.count_cons]
  · intro c
    rcases hr with h | ⟨c2, h1, h2⟩
    · rw [h]
    · rw [h1, h2]
      simp [List.count_append, List.count_cons]

/-- C5: every frame starts by clearing the full 256×256 canvas, then
displays the committed commands in insertion order (oldest first), and
ends with the preview's draw calls — present exactly when not drawing and
a preview exists — bracketed by a `save`/`restore` pair. -/
theorem render_pipeline_structure (s : AppState) :
    ∃ body, render s =
      DrawCall.clearRect 0 0 256 256
        :: ((s.strokes.map displayCommand).flatten
          ++ (match s.isDrawing, s.preview with
              | false, some _ => DrawCall.save :: (body ++ [DrawCall.restore])
              | _, _ => [])) := by
  obtain ⟨str, rs, d, pv, tool, stk⟩ := s
  cases d with
  | false =>
    cases pv with
    | none => exact ⟨[], rfl⟩
    | some q =>
      cases q with
      | markerPreview ctr t c =>
          exact ⟨[DrawCall.setGlobalAlpha 0.6, DrawCall.setStrokeStyle c,
                  DrawCall.setLineWidth 1, DrawCall.beginPath,
                  DrawCall.arc ctr (t / 2), DrawCall.stroke], rfl⟩
      | stickerPreview ctr e f =>
          exact ⟨[DrawCall.setGlobalAlpha 0.8, DrawCall.setFont f,
                  DrawCall.setTextAlign "center", DrawCall.setTextBaseline "middle",
                  DrawCall.fillText e ctr], rfl⟩
  | true => exact ⟨[], rfl⟩

/-- C6: a marker stroke holding exactly one point displays a non-empty
call list: it strokes a degenerate segment from the point to the point
offset by 0.01 in each coordinate, instead of emitting nothing. -/
theorem single_point_stroke_visible (pt : Point) (t : ℚ) (c : String) :
    displayCommand (DisplayCommand.markerStroke [pt] t c)
      = [DrawCall.setLineWidth t, DrawCall.setLineCap "round",
         DrawCall.setStrokeStyle c, DrawCall.beginPath, DrawCall.moveTo pt,
         DrawCall.lineTo ⟨pt.x + 0.01, pt.y + 0.01⟩, DrawCall.stroke]
    ∧ displayCommand (DisplayCommand.markerStroke [pt] t c) ≠ [] := by
  constructor
  · rfl
  · simp [displayCommand]

theorem mousemove_hover_frame (p : Point) (s : AppState) (hd : s.isDrawing = false) :
    (mousemoveHandler p s).strokes = s.strokes
    ∧ (mousemoveHandler p s).redoStack = s.redoStack := by
  cases hm : s.tool.mode <;> rcases hp : s.preview with _ | q <;>
    (try cases q) <;> simp [mousemoveHandler, hd, hm, hp]

/-- C10: pointer moves while not drawing (hover: they only build or move
the preview) and every tool-selection handler leave the committed
sequence and the redo stack exactly as they were — same lists, hence the
same lengths, order and command contents. -/
theorem hover_toolselect_frame (p : Point) (col col2 em : String)
    (txt : Option String) (s : AppState) :
    (s.isDrawing = false →
      (mousemoveHandler p s).strokes = s.strokes
      ∧ (mousemoveHandler p s).redoStack = s.redoStack)
    ∧ (thinClick col s).strokes = s.strokes
    ∧ (thinClick col s).redoStack = s.redoStack
    ∧ (thickClick col2 s).strokes = s.strokes
    ∧ (thickClick col2 s).redoStack = s.redoStack
    ∧ (stickerClick em s).strokes = s.strokes
    ∧ (stickerClick em s).redoStack = s.redoStack
    ∧ (customStickerClick txt s).strokes = s.strokes
    ∧ (customStickerClick txt s).redoStack = s.redoStack := by
  refine ⟨mousemove_hover_frame p s, ?_, ?_, ?_, ?_, rfl, rfl, ?_, ?_⟩
  · simp only [thinClick]
    split <;> rfl
  · simp only [thinClick]
    split <;> rfl
  · simp only [thickClick]
    split <;> rfl
  · simp only [thickClick]
    split <;> rfl
  · cases txt with
    | none => rfl
    | some t =>
        simp only [customStickerClick]
        split_ifs <;> rfl
  · cases txt with
    | none => rfl
    | some t =>
        simp only [customStickerClick]
        split_ifs <;> rfl

/-- The state after selecting the 🎨 sticker and hovering at (5,5): the
preview slot holds a sticker preview. -/
def hoverStickerState : AppState :=
  mousemoveHandler ⟨5, 5⟩ (stickerClick "🎨" initState)

/-- C7 counterexample: clicking the Fine marker tool while a sticker
preview is showing switches the active mode to marker but leaves the
sticker preview in place — it is not discarded (set to none) as the
claim requires for a preview that does not match the new mode. -/
theorem toolselect_keeps_foreign_preview :
    (thinClick "red" hoverStickerState).tool.mode = ToolMode.marker
    ∧ (thinClick "red" hoverStickerState).preview
        = some (ToolPreview.stickerPreview ⟨5, 5⟩ "🎨" STICKER_FONT_PX)
    ∧ (thinClick "red" hoverStickerState).preview ≠ none := by
  refine ⟨rfl, rfl, ?_⟩
  intro h
  simp [thinClick, hoverStickerState, mousemoveHandler, stickerClick, initState] at h

/-- Whether the preview slot holds a marker preview (the
`preview instanceof MarkerPreview` test of the source). -/
def holdsMarkerPreview : Option ToolPreview → Bool
  | some (ToolPreview.markerPreview _ _ _) => true
  | _ => false

/-- C7 (amended): no tool-selection event ever discards the preview.
The Fine/Bold marker buttons update a marker preview's thickness and
colour in place (keeping its position) and leave any preview that is not
a marker preview unchanged; sticker-selection buttons and the
custom-sticker button leave the preview slot unchanged entirely. -/
theorem toolselect_preview_update (col col2 em : String) (txt : Option String)
    (s : AppState) :
    (∀ ctr t c, s.preview = some (ToolPreview.markerPreview ctr t c) →
      (thinClick col s).preview = some (ToolPreview.markerPreview ctr THIN col)
      ∧ (thickClick col2 s).preview = some (ToolPreview.markerPreview ctr THICK col2))
    ∧ (holdsMarkerPreview s.preview = false →
      (thinClick col s).preview = s.preview
      ∧ (thickClick col2 s).preview = s.preview)
    ∧ (stickerClick em s).preview = s.preview
    ∧ (customStickerClick txt s).preview = s.preview := by
  refine ⟨?_, ?_, rfl, ?_⟩
  · intro ctr t c hp
    exact ⟨by simp [thinClick, hp], by simp [thickClick, hp]⟩
  · intro hb
    rcases hp : s.preview with _ | q
    · exact ⟨by simp [thinClick, hp], by simp [thickClick, hp]⟩
    · cases q with
      | markerPreview ctr t c =>
          rw [hp] at hb
          simp [holdsMarkerPreview] at hb
      | stickerPreview ctr e f =>
          exact ⟨by simp [thinClick, hp], by simp [thickClick, hp]⟩
  · cases txt with
    | none => rfl
    | some t =>
        simp only [customStickerClick]
        split_ifs <;> rfl

/-- The state mid-drag after beginning a marker stroke at (10,10) and
then activating a sticker button (reachable, for instance, via keyboard
activation while the pointer button is held): the live command is a
marker stroke but the current tool mode is sticker. -/
def midDragSwitchState : AppState :=
  stickerClick "✨" (mousedownHandler ⟨10, 10⟩ initState)

/-- C8 counterexample: a drag sample arriving while the live command is a
marker stroke is not appended when the current tool mode is sticker — the
handler dispatches on the mode before testing the command's variant — so
the live stroke keeps its single point instead of gaining the sample. -/
theorem extend_ignores_stroke_in_sticker_mode :
    (mousemoveHandler ⟨20, 20⟩ midDragSwitchState).strokes
      = [DisplayCommand.markerStroke [⟨10, 10⟩] THIN "#000000"]
    ∧ (mousemoveHandler ⟨20, 20⟩ midDragSwitchState).strokes
      ≠ [DisplayCommand.markerStroke [⟨10, 10⟩, ⟨20, 20⟩] THIN "#000000"] := by
  decide

/-- C8 (amended): a drag sample extends the live command only when the
command's variant matches the current tool mode: in marker mode a live
marker stroke gets the sample appended after its existing points, and in
sticker mode a live sticker command gets its single anchor replaced by
the sample, so it always holds exactly one position. -/
theorem extend_append_or_move (p : Point) (s : AppState) (hd : s.isDrawing = true) :
    (∀ pts t c, s.strokes.getLast? = some (DisplayCommand.markerStroke pts t c) →
      s.tool.mode = ToolMode.marker →
      (mousemoveHandler p s).strokes
        = s.strokes.dropLast ++ [DisplayCommand.markerStroke (pts ++ [p]) t c])
    ∧ (∀ q e f, s.strokes.getLast? = some (DisplayCommand.stickerCommand q e f) →
      s.tool.mode = ToolMode.sticker →
      (mousemoveHandler p s).strokes
        = s.strokes.dropLast ++ [DisplayCommand.stickerCommand p e f]) := by
  constructor <;> intro a b c hlast hm <;> simp [mousemoveHandler, hd, hlast, hm]

theorem extend_append_or_move_witness :
    (mousemoveHandler ⟨20, 20⟩ (mousedownHandler ⟨10, 10⟩ initState)).strokes
      = (mousedownHandler ⟨10, 10⟩ initState).strokes.dropLast
        ++ [DisplayCommand.markerStroke ([⟨10, 10⟩] ++ [⟨20, 20⟩]) THIN "#000000"] :=
  (extend_append_or_move ⟨20, 20⟩ (mousedownHandler ⟨10, 10⟩ initState) rfl).1
    [⟨10, 10⟩] THIN "#000000" (by decide) rfl

/-- Every marker stroke stored in the committed sequence or the redo
stack has a non-empty point list. -/
def strokesWF (s : AppState) : Prop :=
  ∀ pts t c, DisplayCommand.markerStroke pts t c ∈ s.strokes ++ s.redoStack → pts ≠ []

theorem mousemove_nolive (p : Point) (s : AppState) (hd : s.isDrawing = true)
    (hs : s.strokes = []) : mousemoveHandler p s = s := by
  simp [mousemoveHandler, hd, hs]

theorem mousemove_drag_marker (p : Point) (s : AppState) (hd : s.isDrawing = true)
    (hm : s.tool.mode = ToolMode.marker) (l : List DisplayCommand)
    (pts : List Point) (t : ℚ) (c : String)
    (hs : s.strokes = l ++ [DisplayCommand.markerStroke pts t c]) :
    mousemoveHandler p s
      = { s with strokes := l ++ [DisplayCommand.markerStroke (pts ++ [p]) t c] } := by
  simp [mousemoveHandler, hd, hm, hs, List.getLast?_concat, List.dropLast_concat]

theorem mousemove_drag_sticker (p : Point) (s : AppState) (hd : s.isDrawing = true)
    (hm : s.tool.mode = ToolMode.sticker) (l : List DisplayCommand)
    (q : Point) (e : String) (f : ℚ)
    (hs : s.strokes = l ++ [DisplayCommand.stickerCommand q e f]) :
    mousemoveHandler p s
      = { s with strokes := l ++ [DisplayCommand.stickerCommand p e f] } := by
  simp [mousemoveHandler, hd, hm, hs, List.getLast?_concat, List.dropLast_concat]

theorem mousemove_mismatch_marker (p : Point) (s : AppState) (hd : s.isDrawing = true)
    (hm : s.tool.mode = ToolMode.sticker) (l : List DisplayCommand)
    (pts : List Point) (t : ℚ) (c : String)
    (hs : s.strokes = l ++ [DisplayCommand.markerStroke pts t c]) :
    mousemoveHandler p s = s := by
  simp [mousemoveHandler, hd, hm, hs, List.getLast?_concat]

theorem mousemove_mismatch_sticker (p : Point) (s : AppState) (hd : s.isDrawing = true)
    (hm : s.tool.mode = ToolMode.marker) (l : List DisplayCommand)
    (q : Point) (e : String) (f : ℚ)
    (hs : s.strokes = l ++ [DisplayCommand.stickerCommand q e f]) :
    mousemoveHandler p s = s := by
  simp [mousemoveHandler, hd, hm, hs, List.getLast?_concat]

theorem strokesWF_step (e : Event) (s : AppState) (h : strokesWF s) :
    strokesWF (step e s) := by
  cases e with
  | mousedown p =>
      intro pts t c hm
      cases hmode : s.tool.mode <;>
        simp [step, mousedownHandler, hmode] at hm
      · rcases hm with hm | ⟨hm, -⟩
        · exact h pts t c (List.mem_append_left _ hm)
        · simp [hm]
      · exact h pts t c (List.mem_append_left _ hm)
  | mousemove p =>
      intro pts t c hm
      simp only [step] at hm
      by_cases hd : s.isDrawing = true
      · rcases List.eq_nil_or_concat' s.strokes with hs | ⟨l, last, hs⟩
        · rw [mousemove_nolive p s hd hs] at hm
          exact h pts t c hm
        · cases last with
          | markerStroke pts0 t0 c0 =>
              cases hmode : s.tool.mode with
              | marker =>
                  rw [mousemove_drag_marker p s hd hmode l pts0 t0 c0 hs] at hm
                  simp only [List.mem_append] at hm
                  rcases hm with (hm | hm) | hm
                  · refine h pts t c (List.mem_append_left _ ?_)
                    rw [hs]
                    exact List.mem_append_left _ hm
                  · simp at hm
                    simp [hm.1]
                  · exact h pts t c (List.mem_append_right _ hm)
              | sticker =>
                  rw [mousemove_mismatch_marker p s hd hmode l pts0 t0 c0 hs] at hm
                  exact h pts t c hm
          | stickerCommand q0 e0 f0 =>
              cases hmode : s.tool.mode with
              | marker =>
                  rw [mousemove_mismatch_sticker p s hd hmode l q0 e0 f0 hs] at hm
                  exact h pts t c hm
              | sticker =>
                  rw [mousemove_drag_sticker p s hd hmode l q0 e0 f0 hs] at hm
                  simp only [List.mem_append] at hm
                  rcases hm with (hm | hm) | hm
                  · refine h pts t c (List.mem_append_left _ ?_)
                    rw [hs]
                    exact List.mem_append_left _ hm
                  · simp at hm
                  · exact h pts t c (List.mem_append_right _ hm)
      · have hd2 : s.isDrawing = false := by
          cases hb : s.isDrawing
          · rfl
          · exact absurd hb hd
        have hfr := mousemove_hover_frame p s hd2
        rw [hfr.1, hfr.2] at hm
        exact h pts t c hm
  | mouseup => exact h
  | mouseleave => exact h
  | undoB =>
      intro pts t c hm
      simp only [step] at hm
      rcases undo_moves s with hu | ⟨c2, h1, h2⟩
      · rw [hu] at hm
        exact h pts t c hm
      · rw [h2] at hm
        simp only [List.mem_append] at hm
        rcases hm with hm | hm | hm
        · refine h pts t c (List.mem_append_left _ ?_)
          rw [h1]
          exact List.mem_append_left _ hm
        · exact h pts t c (List.mem_append_right _ hm)
        · refine h pts t c (List.mem_append_left _ ?_)
          rw [h1]
          exact List.mem_append_right _ hm
  | redoB =>
      intro pts t c hm
      simp only [step] at hm
      rcases redo_moves s with hu | ⟨c2, h1, h2⟩
      · rw [hu] at hm
        exact h pts t c hm
      · rw [h2] at hm
        simp only [List.mem_append] at hm
        rcases hm with (hm | hm) | hm
        · exact h pts t c (List.mem_append_left _ hm)
        · refine h pts t c (List.mem_append_right _ ?_)
          rw [h1]
          exact List.mem_append_right _ hm
        · refine h pts t c (List.mem_append_right _ ?_)
          rw [h1]
          exact List.mem_append_left _ hm
  | clearB =>
      intro pts t c hm
      simp [step, clearClick] at hm
  | thinB col =>
      intro pts t c hm
      refine h pts t c ?_
      simp only [step, thinClick] at hm
      revert hm
      split <;> exact fun hm => hm
  | thickB col =>
      intro pts t c hm
      refine h pts t c ?_
      simp only [step, thickClick] at hm
      revert hm
      split <;> exact fun hm => hm
  | stickerB em => exact h
  | customStickerB txt =>
      intro pts t c hm
      refine h pts t c ?_
      cases txt with
      | none => exact hm
      | some t2 =>
          simp only [step, customStickerClick] at hm
          revert hm
          split_ifs <;> exact fun hm => hm

theorem strokesWF_reachable (s : AppState) (h : Reachable s) : strokesWF s := by
  induction h with
  | init =>
      intro pts t c hm
      simp [initState] at hm
  | next e hs ih => exact strokesWF_step e _ ih

/-- C9: in every reachable program state, every marker stroke stored in
the committed sequence or the redo stack has at least one point —
construction stores the starting point and dragging only appends — and
its display call list is non-empty, so the empty-points early return in
`MarkerStroke.display` is never taken for a stroke the program built. -/
theorem stroke_points_nonempty (s : AppState) (hs : Reachable s)
    (pts : List Point) (t : ℚ) (c : String)
    (hm : DisplayCommand.markerStroke pts t c ∈ s.strokes ++ s.redoStack) :
    pts ≠ [] ∧ displayCommand (DisplayCommand.markerStroke pts t c) ≠ [] := by
  have hne := strokesWF_reachable s hs pts t c hm
  refine ⟨hne, ?_⟩
  cases pts with
  | nil => exact absurd rfl hne
  | cons a l => simp [displayCommand]

theorem stroke_points_nonempty_witness :
    ([⟨1, 2⟩] : List Point) ≠ []
    ∧ displayCommand (DisplayCommand.markerStroke [⟨1, 2⟩] THIN "#000000") ≠ [] :=
  stroke_points_nonempty (step (Event.mousedown ⟨1, 2⟩) initState)
    (Reachable.next (Event.mousedown ⟨1, 2⟩) Reachable.init)
    [⟨1, 2⟩] THIN "#000000" (by decide)
